import Mathlib

/-!
Verification of the noise-filter classification pipeline of this repository
(spec §§2–8, `Noise filter module/implentationStrategy.md`).

The repository ships the pipeline's design documents and frontend, while the
Python modules they describe (`classifier.py`, `enron_parser.py`, `schema.py`,
`storage.py`) are not present in the tree; every definition below is therefore
modelled from the specification's words, kept executable so that concrete
scenarios (e.g. "The deadline is March 15") can be evaluated.
-/

namespace NoiseFilter

/-- Modelled from the spec: the five classification categories
(`implentationStrategy.md` §2, spec §3). -/
inductive Label where
  | requirement
  | decision
  | stakeholder_feedback
  | timeline_reference
  | noise
deriving DecidableEq

/-- Modelled from the spec: enumerated source type of a chunk (spec §3). -/
inductive SourceType where
  | email
  | meeting
  | chat
  | file
deriving DecidableEq

/-- Modelled from the spec: the classification path recorded on a
Classification (spec §3): heuristic, domain-gate, or semantic (LLM). -/
inductive ClassPath where
  | heuristic
  | domainGate
  | semantic
deriving DecidableEq

/-- Modelled from the spec: a Chunk, the unit of classification (spec §3);
`sourceRef` is the caller-supplied natural key (e.g. a Message-ID). -/
structure Chunk where
  chunkId : String
  sessionId : String
  sourceType : SourceType
  sourceRef : String
  speaker : Option String
  timestamp : Option String
  rawText : String
  cleanedText : String
deriving DecidableEq

instance : Inhabited Chunk :=
  ⟨⟨"", "", SourceType.email, "", none, none, "", ""⟩⟩

/-- Test `isPrefixOfChars pat l` : `pat` is a prefix of `l` (character lists). -/
def isPrefixOfChars : List Char → List Char → Bool
  | [], _ => true
  | _ :: _, [] => false
  | a :: as, b :: bs => a == b && isPrefixOfChars as bs

/-- Test `containsSubChars pat l` : `pat` occurs as a contiguous sublist of `l`. -/
def containsSubChars (pat : List Char) : List Char → Bool
  | [] => pat.isEmpty
  | c :: rest => isPrefixOfChars pat (c :: rest) || containsSubChars pat rest

/-- Test `containsSub hay pat` : `pat` occurs contiguously inside `hay`. -/
def containsSub (hay pat : List Char) : Bool :=
  containsSubChars pat hay

/-- Split a character list into maximal whitespace-free words; `cur` holds
the (reversed) word being read. -/
def wordsAux (cur : List Char) : List Char → List (List Char)
  | [] => if cur.isEmpty then [] else [cur.reverse]
  | ch :: rest =>
    if ch.isWhitespace then
      (if cur.isEmpty then [] else [cur.reverse]) ++ wordsAux [] rest
    else wordsAux (ch :: cur) rest

/-- The whitespace-separated words of a character list. -/
def words (s : List Char) : List (List Char) :=
  wordsAux [] s

/-- Join words back with single spaces. -/
def joinWithSpace : List (List Char) → List Char
  | [] => []
  | [w] => w
  | w :: ws => w ++ ' ' :: joinWithSpace ws

/-- Modelled from the spec: text normalization used by the Deduplicator and
the pattern heuristics — case folding and whitespace collapse (spec §4.1). -/
def normalizeText (s : String) : List Char :=
  joinWithSpace (words (s.data.map Char.toLower))

/-- Modelled from the spec: two chunks are duplicates iff they share the
caller-supplied natural key OR their cleaned text is identical after
normalization (spec §4.1; `implentationStrategy.md` dedup by Message-ID /
content hash). -/
def isDup (a b : Chunk) : Bool :=
  a.sourceRef == b.sourceRef ||
    normalizeText a.cleanedText == normalizeText b.cleanedText

/-- Test `dupOfAny seen c` : some already-seen chunk is a duplicate of `c`. -/
def dupOfAny (seen : List Chunk) (c : Chunk) : Bool :=
  seen.any (fun s => isDup s c)

/-- Modelled from the spec: Deduplicator worker. `seen` accumulates every
chunk processed so far (kept or dropped); a chunk is dropped iff some earlier
chunk duplicates it (spec §4.1 "keep the first occurrence in input order;
later duplicates are dropped"). -/
def dedupFrom (seen : List Chunk) : List Chunk → List Chunk
  | [] => []
  | c :: cs =>
    if dupOfAny seen c then dedupFrom (seen ++ [c]) cs
    else c :: dedupFrom (seen ++ [c]) cs

/-- Modelled from the spec: the Deduplicator (spec §4.1), a pure function on
one ingestion batch. -/
def deduplicate (chunks : List Chunk) : List Chunk :=
  dedupFrom [] chunks

/-- Lookup `chunkAt xs i` : chunk at position `i` (default chunk out of range). -/
def chunkAt (xs : List Chunk) (i : Nat) : Chunk :=
  xs.getD i default

/-- Position `i` of `xs` holds a duplicate of some strictly earlier chunk. -/
def hasEarlierDup (xs : List Chunk) (i : Nat) : Bool :=
  (xs.take i).any (fun s => isDup s (chunkAt xs i))

/-- Restatement of the claimed contract in the spec's words: keep exactly
those positions that are not duplicates of an earlier chunk, in input
order. -/
def dedupKeepFirst (xs : List Chunk) : List Chunk :=
  ((List.range xs.length).filter (fun i => !hasEarlierDup xs i)).map (chunkAt xs)

theorem filter_map_succ (p : Nat → Bool) (l : List Nat) :
    (l.map Nat.succ).filter p = (l.filter (fun i => p (i + 1))).map Nat.succ := by
  induction l with
  | nil => rfl
  | cons a l ih =>
    by_cases h : p (a + 1) = true
    · simp [List.filter, h, ih]
    · simp only [Bool.not_eq_true] at h
      simp [List.filter, h, ih]

theorem dedupFrom_cons (seen : List Chunk) (c : Chunk) (cs : List Chunk) :
    dedupFrom seen (c :: cs) =
      (if dupOfAny seen c = true then [] else [c]) ++ dedupFrom (seen ++ [c]) cs := by
  by_cases h : dupOfAny seen c = true <;> simp [dedupFrom, h]

theorem keepFirst_cons_aux (seen : List Chunk) (c : Chunk) (cs : List Chunk) :
    ((List.range (cs.length + 1)).filter
        (fun i => !dupOfAny (seen ++ (c :: cs).take i) (chunkAt (c :: cs) i))).map
      (chunkAt (c :: cs)) =
      (if dupOfAny seen c = true then [] else [c]) ++
        ((List.range cs.length).filter
            (fun i => !dupOfAny ((seen ++ [c]) ++ cs.take i) (chunkAt cs i))).map
          (chunkAt cs) := by
  rw [List.range_succ_eq_map, List.filter_cons, filter_map_succ]
  by_cases h : dupOfAny seen c = true <;>
    simp [h, chunkAt, List.map_map, Function.comp, List.append_assoc]

theorem dedupFrom_eq (cs : List Chunk) :
    ∀ seen : List Chunk,
      dedupFrom seen cs =
        ((List.range cs.length).filter
            (fun i => !dupOfAny (seen ++ cs.take i) (chunkAt cs i))).map
          (chunkAt cs) := by
  induction cs with
  | nil => intro seen; rfl
  | cons c cs ih =>
    intro seen
    rw [dedupFrom_cons, List.length_cons, keepFirst_cons_aux, ih (seen ++ [c])]

theorem dedupFrom_sublist (cs : List Chunk) :
    ∀ seen : List Chunk, (dedupFrom seen cs).Sublist cs := by
  induction cs with
  | nil => intro seen; exact List.Sublist.refl _
  | cons c cs ih =>
    intro seen
    by_cases h : dupOfAny seen c = true
    · simp only [dedupFrom, h, if_true]
      exact (ih (seen ++ [c])).cons c
    · simp only [Bool.not_eq_true] at h
      simp only [dedupFrom, h, if_false]
      exact (ih (seen ++ [c])).cons₂ c

theorem dupOfAny_false_of_subset {s t : List Chunk} (hsub : t ⊆ s) {c : Chunk}
    (h : dupOfAny s c = false) : dupOfAny t c = false := by
  simp only [dupOfAny, List.any_eq_false] at h ⊢
  exact fun x hx => h x (hsub hx)

theorem dedupFrom_idem (cs : List Chunk) :
    ∀ s t : List Chunk, t ⊆ s → dedupFrom t (dedupFrom s cs) = dedupFrom s cs := by
  induction cs with
  | nil => intro s t _; rfl
  | cons c cs ih =>
    intro s t hsub
    by_cases h : dupOfAny s c = true
    · simp only [dedupFrom, h, if_true]
      exact ih (s ++ [c]) t (hsub.trans (List.subset_append_left _ _))
    · simp only [Bool.not_eq_true] at h
      have ht : dupOfAny t c = false := dupOfAny_false_of_subset hsub h
      simp only [dedupFrom, h, if_false, ht]
      have hsub' : t ++ [c] ⊆ s ++ [c] := by
        intro x hx
        rcases List.mem_append.mp hx with h1 | h2
        · exact List.mem_append.mpr (Or.inl (hsub h1))
        · exact List.mem_append.mpr (Or.inr h2)
      rw [ih (s ++ [c]) (t ++ [c]) hsub']

/-- Modelled from the spec: a proposed classification as produced by one of
the three classifier stages, before confidence resolution (spec §3, §4). -/
structure Proposed where
  label : Label
  confidence : ℚ
  rationale : String
  path : ClassPath
deriving DecidableEq

/-- Modelled from the spec: a resolved Classification (spec §3): final label,
confidence, rationale, path, suppressed, review flag, manual-restore flag and
creation timestamp. -/
structure Classification where
  label : Label
  confidence : ℚ
  rationale : String
  path : ClassPath
  suppressed : Bool
  reviewFlag : Bool
  manuallyRestored : Bool
  createdAt : Nat
deriving DecidableEq

/-- Modelled from the spec: externally supplied configuration (spec §6):
minimum-token threshold, domain vocabulary, and the two confidence
cutoffs. -/
structure Config where
  minTokens : Nat
  vocab : List String
  hi : ℚ
  lo : ℚ

/-- Whitespace-separated token count of a string. -/
def tokenCount (s : String) : Nat :=
  (words s.data).length

/-- Modelled from the spec: known low-content acknowledgement patterns
(spec §4.2 step 1; `implentationStrategy.md` §1.3). -/
def lowContentPatterns : List String :=
  ["thanks", "thank you", "sounds good", "ok", "okay", "sure", "got it"]

/-- True when the text has no alphanumeric character at all (pure
punctuation/emoji content, spec §4.2 step 1). -/
def isPurePunctuation (s : String) : Bool :=
  s.data.all (fun ch => !ch.isAlphanum)

/-- Modelled from the spec: heuristic step 1 (spec §4.2): token count below
the minimum threshold AND a known low-content pattern (short acknowledgement,
single-word reply, or pure punctuation/emoji). -/
def isShortLowContent (minTok : Nat) (s : String) : Bool :=
  decide (tokenCount s < minTok) &&
    (lowContentPatterns.any (fun p => containsSub (normalizeText s) p.data) ||
      tokenCount s == 1 || isPurePunctuation s)

/-- Modelled from the spec: structural-discard patterns (spec §4.2 step 2):
delivery failures, out-of-office replies, forwarded-header boilerplate,
meeting crosstalk/pause markers. -/
def structuralDiscardPatterns : List String :=
  ["delivery status notification", "out of office", "original message",
    "you have been invited to a meeting", "[crosstalk]", "[laughter]",
    "[pause]", "[silence]"]

/-- Heuristic step 2: the text matches a structural-discard pattern. -/
def isStructuralDiscard (s : String) : Bool :=
  structuralDiscardPatterns.any (fun p => containsSub (normalizeText s) p.data)

/-- Lower-cased month names, for explicit date patterns. -/
def monthNames : List String :=
  ["january", "february", "march", "april", "may", "june", "july",
    "august", "september", "october", "november", "december"]

/-- By-day-of-week deadline phrases (spec §4.2 step 3). -/
def byDayPatterns : List String :=
  ["by monday", "by tuesday", "by wednesday", "by thursday", "by friday",
    "by saturday", "by sunday"]

/-- Modelled from the spec: explicit date/deadline pattern (spec §4.2 step 3):
relative date phrases, quarter references, named months, by-day-of-week. -/
def containsDatePattern (s : String) : Bool :=
  monthNames.any (fun m => containsSub (normalizeText s) m.data) ||
    ["q1", "q2", "q3", "q4"].any (fun q => containsSub (normalizeText s) q.data) ||
    byDayPatterns.any (fun d => containsSub (normalizeText s) d.data) ||
    ["tomorrow", "next week", "deadline"].any
      (fun p => containsSub (normalizeText s) p.data)

/-- Modelled from the spec: stronger requirement/decision cues that beat the
timeline heuristic (spec §4.2 step 3). -/
def strongCuePatterns : List String :=
  ["must", "shall", "we will", "decided", "decision", "should", "require"]

/-- The text carries a stronger requirement/decision cue. -/
def hasStrongCue (s : String) : Bool :=
  strongCuePatterns.any (fun p => containsSub (normalizeText s) p.data)

/-- Modelled from the spec: the Heuristic Classifier `apply_heuristics`
(spec §4.2), evaluated in fixed priority order; `none` means undecided. -/
def applyHeuristics (cfg : Config) (c : Chunk) : Option Proposed :=
  if isShortLowContent cfg.minTokens c.cleanedText then
    some ⟨Label.noise, 1, "low-content short message", ClassPath.heuristic⟩
  else if isStructuralDiscard c.cleanedText then
    some ⟨Label.noise, 1, "structural discard pattern", ClassPath.heuristic⟩
  else if containsDatePattern c.cleanedText && !hasStrongCue c.cleanedText then
    some ⟨Label.timeline_reference, 0.9, "explicit date or deadline pattern",
      ClassPath.heuristic⟩
  else
    none

/-- Modelled from the spec: the Domain Gate `has_signal_nouns` (spec §4.3);
`none` means domain vocabulary is present, proceed to the Semantic
Classifier. -/
def domainGate (vocab : List String) (c : Chunk) : Option Proposed :=
  if vocab.any (fun w => containsSub (normalizeText c.cleanedText) (normalizeText w)) then
    none
  else
    some ⟨Label.noise, 0.3, "no domain-relevant vocabulary detected",
      ClassPath.domainGate⟩

/-- Modelled from the spec: one raw reply of the external classification
service (spec §4.4): a structured response, a schema violation, a timeout,
or a transport failure. -/
inductive LLMReply where
  | ok (label : Label) (confidence : ℚ) (rationale : String)
  | badSchema
  | timeout
  | transportFail
deriving DecidableEq

/-- A reply that triggers the single retry: timeout or transport failure. -/
def isRetryableFail : LLMReply → Bool
  | LLMReply.timeout => true
  | LLMReply.transportFail => true
  | _ => false

/-- Modelled from the spec: strict schema validation (spec §4.4): the label
is one of the five enumerated values (enforced by `Label`), the confidence
must lie in [0,1]; any violation counts as malformed. -/
def validReply : LLMReply → Option Proposed
  | LLMReply.ok l conf rat =>
    if 0 ≤ conf ∧ conf ≤ 1 then some ⟨l, conf, rat, ClassPath.semantic⟩
    else none
  | _ => none

/-- Modelled from the spec: the fallback after the retry also failed
(spec §4.4): noise, confidence 0.0, rationale naming the unavailability. -/
def unavailableFallback : Proposed :=
  ⟨Label.noise, 0, "classification service unavailable", ClassPath.semantic⟩

/-- Modelled from the spec: the fallback for a malformed response
(spec §4.4): identical to the timeout fallback, rationale noting the
malformed response. -/
def malformedFallback : Proposed :=
  ⟨Label.noise, 0, "malformed classification service response",
    ClassPath.semantic⟩

/-- Modelled from the spec: `classify_with_llm` failure semantics (spec §4.4;
`implentationStrategy.md` §9). The service is modelled as the sequence of
replies it gives to successive attempts on this one chunk's fixed input.
Returns the proposed classification and the number of attempts issued. -/
def classifyWithLLM (service : Nat → LLMReply) : Proposed × Nat :=
  match validReply (service 0), isRetryableFail (service 0) with
  | some p, _ => (p, 1)
  | none, false => (malformedFallback, 1)
  | none, true =>
    match validReply (service 1), isRetryableFail (service 1) with
    | some p, _ => (p, 2)
    | none, false => (malformedFallback, 2)
    | none, true => (unavailableFallback, 2)

/-- Modelled from the spec: the Confidence Resolver (spec §4.5), applied
uniformly to every proposed classification regardless of its path: at or
above `hi` accept with no review flag; between `lo` and `hi` accept the
label but flag; below `lo` force the label to noise, suppress, and flag. -/
def resolve (hi lo : ℚ) (p : Proposed) (now : Nat) : Classification :=
  if p.confidence ≥ hi then
    { label := p.label, confidence := p.confidence, rationale := p.rationale,
      path := p.path, suppressed := decide (p.label = Label.noise),
      reviewFlag := false, manuallyRestored := false, createdAt := now }
  else if p.confidence ≥ lo then
    { label := p.label, confidence := p.confidence, rationale := p.rationale,
      path := p.path, suppressed := decide (p.label = Label.noise),
      reviewFlag := true, manuallyRestored := false, createdAt := now }
  else
    { label := Label.noise, confidence := p.confidence,
      rationale := p.rationale, path := p.path, suppressed := true,
      reviewFlag := true, manuallyRestored := false, createdAt := now }

/-- Modelled from the spec: one chunk's strictly sequential path through the
pipeline (spec §2, §4, §5): heuristic, then domain gate, then semantic
classifier, each later stage only when the earlier ones were undecided. -/
def classifyChunk (cfg : Config) (service : Nat → LLMReply) (c : Chunk) :
    Proposed :=
  match applyHeuristics cfg c with
  | some p => p
  | none =>
    match domainGate cfg.vocab c with
    | some p => p
    | none => (classifyWithLLM service).1

/-- Modelled from the spec: ClassifiedRecord = Chunk ⊕ Classification,
persisted as a single append-only row (spec §3). -/
structure ClassifiedRecord where
  chunk : Chunk
  cls : Classification
deriving DecidableEq

/-- Build the ClassifiedRecord the pipeline persists for one chunk. -/
def buildRecord (cfg : Config) (service : Nat → LLMReply) (now : Nat)
    (c : Chunk) : ClassifiedRecord :=
  { chunk := c, cls := resolve cfg.hi cfg.lo (classifyChunk cfg service c) now }

/-- Modelled from the spec: one pipeline run over an ingestion batch
(spec §2): deduplicate, then classify and resolve every surviving chunk. -/
def runBatch (cfg : Config) (service : Chunk → Nat → LLMReply) (now : Nat)
    (chunks : List Chunk) : List ClassifiedRecord :=
  (deduplicate chunks).map (fun c => buildRecord cfg (service c) now c)

/-- Modelled from the spec: an audit event logged for every mutation of a
stored record: who, when, previous value (spec §3, §4.6). -/
structure AuditEvent where
  recordId : String
  actor : String
  timestamp : Nat
  prevSuppressed : Bool
  prevRestored : Bool
deriving DecidableEq

/-- Modelled from the spec: the Record Store Adapter state: append-only
records plus the audit-event log (spec §3, §4.6, §6). -/
structure StoreState where
  records : List ClassifiedRecord
  events : List AuditEvent
deriving DecidableEq

/-- The empty store. -/
def emptyStore : StoreState := ⟨[], []⟩

/-- Modelled from the spec: the Restore failure taxonomy (spec §4.6). -/
inductive RestoreError where
  | notFound
deriving DecidableEq

/-- Update the first record carrying the given identifier. -/
def updateFirst (id : String) (f : ClassifiedRecord → ClassifiedRecord) :
    List ClassifiedRecord → List ClassifiedRecord
  | [] => []
  | r :: rs =>
    if r.chunk.chunkId == id then f r :: rs else r :: updateFirst id f rs

/-- The mutation Restore applies: suppressed := false,
manually_restored := true, everything else untouched. -/
def setRestored (r : ClassifiedRecord) : ClassifiedRecord :=
  { r with cls :=
      { r.cls with suppressed := false, manuallyRestored := true } }

/-- Modelled from the spec: the Restore operation (spec §4.6): on success it
sets suppressed = false and manually_restored = true, appends an audit event
holding the previous state, and returns the updated record; it fails with
NotFound when the identifier does not exist. -/
def restoreRecord (st : StoreState) (id : String) (actor : String)
    (time : Nat) : Except RestoreError (StoreState × ClassifiedRecord) :=
  match st.records.find? (fun r => r.chunk.chunkId == id) with
  | none => Except.error RestoreError.notFound
  | some r =>
    Except.ok
      ({ records := updateFirst id setRestored st.records,
         events := st.events ++
           [⟨id, actor, time, r.cls.suppressed, r.cls.manuallyRestored⟩] },
        setRestored r)

/-- Modelled from the spec: the only operations that touch the store after
its creation (spec §3 lifecycle): a pipeline run appending classified
records, and the Restore operation. -/
inductive StoreOp where
  | ingest (cfg : Config) (service : Chunk → Nat → LLMReply) (now : Nat)
      (chunks : List Chunk)
  | restore (id : String) (actor : String) (time : Nat)

/-- Apply one store operation; a failed Restore leaves the store unchanged. -/
def applyOp (st : StoreState) : StoreOp → StoreState
  | StoreOp.ingest cfg service now chunks =>
    { st with records := st.records ++ runBatch cfg service now chunks }
  | StoreOp.restore id actor time =>
    match restoreRecord st id actor time with
    | Except.error _ => st
    | Except.ok (st', _) => st'

/-- Apply a sequence of store operations. -/
def applyOps (st : StoreState) (ops : List StoreOp) : StoreState :=
  ops.foldl applyOp st

/-- Modelled from the spec: the signal-feed query (spec §6): all records
where suppressed = false OR manually_restored = true. -/
def signalFeed (st : StoreState) : List ClassifiedRecord :=
  st.records.filter (fun r => !r.cls.suppressed || r.cls.manuallyRestored)

/-- Modelled from the spec: the stated AKS read condition
(`implentationStrategy.md` §6): label != noise OR manually_restored =
true. -/
def aksRead (st : StoreState) : List ClassifiedRecord :=
  st.records.filter
    (fun r => !(r.cls.label == Label.noise) || r.cls.manuallyRestored)

/-- Modelled from the spec: default configuration values: minimum-token
threshold 5, the Stage 5 domain vocabulary, cutoffs 0.85 and 0.60
(spec §4.5, §6). -/
def defaultConfig : Config :=
  { minTokens := 5,
    vocab := ["system", "feature", "requirement", "dashboard", "report",
      "integration", "api", "database", "screen", "workflow", "user",
      "access", "security", "audit", "deadline", "stakeholder"],
    hi := 0.85, lo := 0.60 }

/-- All fields other than suppressed and manually_restored agree. -/
def sameImmutable (r r' : ClassifiedRecord) : Prop :=
  r'.chunk = r.chunk ∧ r'.cls.label = r.cls.label ∧
    r'.cls.confidence = r.cls.confidence ∧
    r'.cls.rationale = r.cls.rationale ∧ r'.cls.path = r.cls.path ∧
    r'.cls.createdAt = r.cls.createdAt

/-! ### Helper lemmas about the Confidence Resolver -/

theorem resolve_of_ge {hi lo : ℚ} {p : Proposed} {now : Nat}
    (h : p.confidence ≥ hi) :
    resolve hi lo p now =
      { label := p.label, confidence := p.confidence,
        rationale := p.rationale, path := p.path,
        suppressed := decide (p.label = Label.noise), reviewFlag := false,
        manuallyRestored := false, createdAt := now } := by
  rw [resolve, if_pos h]

theorem resolve_of_mid {hi lo : ℚ} {p : Proposed} {now : Nat}
    (h1 : ¬p.confidence ≥ hi) (h2 : p.confidence ≥ lo) :
    resolve hi lo p now =
      { label := p.label, confidence := p.confidence,
        rationale := p.rationale, path := p.path,
        suppressed := decide (p.label = Label.noise), reviewFlag := true,
        manuallyRestored := false, createdAt := now } := by
  rw [resolve, if_neg h1, if_pos h2]

theorem resolve_of_low {hi lo : ℚ} {p : Proposed} {now : Nat}
    (h1 : ¬p.confidence ≥ hi) (h2 : ¬p.confidence ≥ lo) :
    resolve hi lo p now =
      { label := Label.noise, confidence := p.confidence,
        rationale := p.rationale, path := p.path, suppressed := true,
        reviewFlag := true, manuallyRestored := false, createdAt := now } := by
  rw [resolve, if_neg h1, if_neg h2]

theorem resolve_restored_false (hi lo : ℚ) (p : Proposed) (now : Nat) :
    (resolve hi lo p now).manuallyRestored = false := by
  simp only [resolve]
  split
  · rfl
  · split <;> rfl

theorem resolve_suppressed_iff (hi lo : ℚ) (p : Proposed) (now : Nat) :
    (resolve hi lo p now).suppressed = true ↔
      (resolve hi lo p now).label = Label.noise := by
  simp only [resolve]
  split
  · simp
  · split
    · simp
    · simp

theorem buildRecord_restored_false (cfg : Config) (service : Nat → LLMReply)
    (now : Nat) (c : Chunk) :
    (buildRecord cfg service now c).cls.manuallyRestored = false :=
  resolve_restored_false _ _ _ _

theorem buildRecord_suppressed_iff (cfg : Config) (service : Nat → LLMReply)
    (now : Nat) (c : Chunk) :
    (buildRecord cfg service now c).cls.suppressed = true ↔
      (buildRecord cfg service now c).cls.label = Label.noise :=
  resolve_suppressed_iff _ _ _ _

/-! ### Claim theorems: Deduplicator (C6, C7) -/

/-- C6: Deduplication is idempotent — applying the Deduplicator to its own
output yields that output unchanged, for every input sequence of chunks. -/
theorem deduplicate_idempotent (xs : List Chunk) :
    deduplicate (deduplicate xs) = deduplicate xs :=
  dedupFrom_idem xs [] [] (fun _ h => h)

/-- C7: The Deduplicator is a pure function that removes exactly the chunks
duplicating an earlier chunk (same caller-supplied natural key or identical
normalized cleaned text) and keeps the first occurrence in input order: its
output equals the keep-first-occurrence selection and is a sublist of the
input. -/
theorem deduplicate_keeps_first_occurrence (xs : List Chunk) :
    deduplicate xs = dedupKeepFirst xs ∧ (deduplicate xs).Sublist xs := by
  refine ⟨?_, dedupFrom_sublist xs []⟩
  rw [deduplicate, dedupFrom_eq, dedupKeepFirst]
  have hfun : (fun i => !hasEarlierDup xs i) =
      fun i => !dupOfAny ([] ++ xs.take i) (chunkAt xs i) := by
    funext i
    simp [hasEarlierDup, dupOfAny]
  rw [hfun]

/-- C1: The Confidence Resolver applies the cutoffs 0.85 and 0.60 to every
classification regardless of path: at confidence ≥ 0.85 the label is accepted
with suppressed = true iff label = noise and no review flag; at
0.60 ≤ confidence < 0.85 the proposed label is kept but the review flag is
set; at confidence < 0.60 the label is forced to noise, suppressed is set,
and the review flag is set. -/
theorem confidence_resolver_uniform_cutoffs (p : Proposed) (now : Nat) :
    (p.confidence ≥ 0.85 →
      (resolve 0.85 0.60 p now).label = p.label ∧
      ((resolve 0.85 0.60 p now).suppressed = true ↔ p.label = Label.noise) ∧
      (resolve 0.85 0.60 p now).reviewFlag = false) ∧
    (0.60 ≤ p.confidence → p.confidence < 0.85 →
      (resolve 0.85 0.60 p now).label = p.label ∧
      ((resolve 0.85 0.60 p now).suppressed = true ↔ p.label = Label.noise) ∧
      (resolve 0.85 0.60 p now).reviewFlag = true) ∧
    (p.confidence < 0.60 →
      (resolve 0.85 0.60 p now).label = Label.noise ∧
      (resolve 0.85 0.60 p now).suppressed = true ∧
      (resolve 0.85 0.60 p now).reviewFlag = true) := by
  refine ⟨fun h => ?_, fun h2 h1 => ?_, fun h => ?_⟩
  · rw [resolve_of_ge h]
    simp
  · rw [resolve_of_mid (not_le.mpr h1) h2]
    simp
  · rw [resolve_of_low (not_le.mpr (h.trans (by norm_num))) (not_le.mpr h)]
    simp

/-- Witness for C1: the three confidence bands evaluated at concrete
classifications 0.91 / 0.70 / 0.40. -/
theorem confidence_resolver_uniform_cutoffs_witness :
    ((resolve 0.85 0.60 ⟨Label.requirement, 0.91, "r", ClassPath.semantic⟩ 3).label =
        Label.requirement ∧
      ((resolve 0.85 0.60 ⟨Label.requirement, 0.91, "r", ClassPath.semantic⟩ 3).suppressed = true ↔
        Label.requirement = Label.noise) ∧
      (resolve 0.85 0.60 ⟨Label.requirement, 0.91, "r", ClassPath.semantic⟩ 3).reviewFlag = false) ∧
    ((resolve 0.85 0.60 ⟨Label.decision, 0.70, "r", ClassPath.heuristic⟩ 3).label =
        Label.decision ∧
      ((resolve 0.85 0.60 ⟨Label.decision, 0.70, "r", ClassPath.heuristic⟩ 3).suppressed = true ↔
        Label.decision = Label.noise) ∧
      (resolve 0.85 0.60 ⟨Label.decision, 0.70, "r", ClassPath.heuristic⟩ 3).reviewFlag = true) ∧
    ((resolve 0.85 0.60 ⟨Label.requirement, 0.40, "r", ClassPath.domainGate⟩ 3).label =
        Label.noise ∧
      (resolve 0.85 0.60 ⟨Label.requirement, 0.40, "r", ClassPath.domainGate⟩ 3).suppressed = true ∧
      (resolve 0.85 0.60 ⟨Label.requirement, 0.40, "r", ClassPath.domainGate⟩ 3).reviewFlag = true) :=
  ⟨(confidence_resolver_uniform_cutoffs ⟨Label.requirement, 0.91, "r", ClassPath.semantic⟩ 3).1
      (by norm_num),
    (confidence_resolver_uniform_cutoffs ⟨Label.decision, 0.70, "r", ClassPath.heuristic⟩ 3).2.1
      (by norm_num) (by norm_num),
    (confidence_resolver_uniform_cutoffs ⟨Label.requirement, 0.40, "r", ClassPath.domainGate⟩ 3).2.2
      (by norm_num)⟩

/-- C10: Every ClassifiedRecord as produced by the pipeline, before any
Restore, has suppressed = true only if its label is noise (no signal-labelled
record is created suppressed), and is created with
manually_restored = false. -/
theorem pipeline_suppressed_implies_noise (cfg : Config)
    (service : Nat → LLMReply) (now : Nat) (c : Chunk) :
    ((buildRecord cfg service now c).cls.suppressed = true →
      (buildRecord cfg service now c).cls.label = Label.noise) ∧
    (buildRecord cfg service now c).cls.manuallyRestored = false :=
  ⟨fun h => (buildRecord_suppressed_iff cfg service now c).mp h,
    buildRecord_restored_false cfg service now c⟩

/-! ### Helper lemmas about the classifier stages -/

theorem applyHeuristics_path {cfg : Config} {c : Chunk} {p : Proposed}
    (h : applyHeuristics cfg c = some p) : p.path = ClassPath.heuristic := by
  simp only [applyHeuristics] at h
  split at h
  · injection h with h1; subst h1; rfl
  · split at h
    · injection h with h1; subst h1; rfl
    · split at h
      · injection h with h1; subst h1; rfl
      · exact absurd h (by simp)

theorem domainGate_path {vocab : List String} {c : Chunk} {p : Proposed}
    (h : domainGate vocab c = some p) : p.path = ClassPath.domainGate := by
  simp only [domainGate] at h
  split at h
  · exact absurd h (by simp)
  · injection h with h1; subst h1; rfl

theorem validReply_path {r : LLMReply} {p : Proposed}
    (h : validReply r = some p) : p.path = ClassPath.semantic := by
  cases r with
  | ok l conf rat =>
    simp only [validReply] at h
    split at h
    · injection h with h1; subst h1; rfl
    · exact absurd h (by simp)
  | badSchema => exact absurd h (by simp [validReply])
  | timeout => exact absurd h (by simp [validReply])
  | transportFail => exact absurd h (by simp [validReply])

theorem classifyWithLLM_path (service : Nat → LLMReply) :
    (classifyWithLLM service).1.path = ClassPath.semantic := by
  unfold classifyWithLLM
  cases h0 : validReply (service 0) with
  | some p => simpa using validReply_path h0
  | none =>
    cases hr0 : isRetryableFail (service 0) with
    | false => simp [h0, hr0, malformedFallback]
    | true =>
      cases h1 : validReply (service 1) with
      | some p => simpa [h0, hr0] using validReply_path h1
      | none =>
        cases hr1 : isRetryableFail (service 1) with
        | false => simp [h0, hr0, h1, hr1, malformedFallback]
        | true => simp [h0, hr0, h1, hr1, unavailableFallback]

theorem validReply_of_retryable {r : LLMReply} (h : isRetryableFail r = true) :
    validReply r = none := by
  cases r <;> simp_all [isRetryableFail, validReply]

/-! ### Claim theorems: pipeline sequencing (C5) -/

/-- C5: For every chunk, the recorded classification path is exactly one of
heuristic / domain-gate / semantic; the semantic path is taken exactly when
the Heuristic Classifier and the Domain Gate both returned undecided; and a
stage's verdict is final — a decided heuristic (resp. gate) result is the
pipeline's result. -/
theorem classification_path_sequencing (cfg : Config)
    (service : Nat → LLMReply) (c : Chunk) :
    ((classifyChunk cfg service c).path = ClassPath.heuristic ∨
      (classifyChunk cfg service c).path = ClassPath.domainGate ∨
      (classifyChunk cfg service c).path = ClassPath.semantic) ∧
    ((classifyChunk cfg service c).path = ClassPath.semantic →
      applyHeuristics cfg c = none ∧ domainGate cfg.vocab c = none) ∧
    (applyHeuristics cfg c = none → domainGate cfg.vocab c = none →
      (classifyChunk cfg service c).path = ClassPath.semantic) ∧
    (∀ p, applyHeuristics cfg c = some p → classifyChunk cfg service c = p) ∧
    (∀ p, applyHeuristics cfg c = none → domainGate cfg.vocab c = some p →
      classifyChunk cfg service c = p) := by
  refine ⟨?_, ?_, ?_, ?_, ?_⟩
  · cases (classifyChunk cfg service c).path <;> simp
  · intro hsem
    cases hh : applyHeuristics cfg c with
    | some p =>
      have hp := applyHeuristics_path hh
      simp only [classifyChunk, hh] at hsem
      rw [hp] at hsem
      exact ClassPath.noConfusion hsem
    | none =>
      cases hg : domainGate cfg.vocab c with
      | some q =>
        have hq := domainGate_path hg
        simp only [classifyChunk, hh, hg] at hsem
        rw [hq] at hsem
        exact ClassPath.noConfusion hsem
      | none => exact ⟨rfl, rfl⟩
  · intro hh hg
    simp only [classifyChunk, hh, hg]
    exact classifyWithLLM_path service
  · intro p hp
    simp [classifyChunk, hp]
  · intro p hh hp
    simp [classifyChunk, hh, hp]

/-! ### Concrete fixtures used by the witnesses -/

/-- Scenario A fixture: a short acknowledgement chunk ("Thanks!"). -/
def exChunkAck : Chunk :=
  { chunkId := "c-ack", sessionId := "s1", sourceType := SourceType.chat,
    sourceRef := "mid-1", speaker := none, timestamp := none,
    rawText := "Thanks!", cleanedText := "Thanks!" }

/-- Scenario B fixture: the "The deadline is March 15" chunk. -/
def exChunkDeadline : Chunk :=
  { chunkId := "c-deadline", sessionId := "s1",
    sourceType := SourceType.email, sourceRef := "mid-2", speaker := none,
    timestamp := none, rawText := "The deadline is March 15",
    cleanedText := "The deadline is March 15" }

/-- A chunk that passes the heuristics undecided and carries domain
vocabulary, so it reaches the Semantic Classifier. -/
def exChunkSystem : Chunk :=
  { chunkId := "c-system", sessionId := "s1",
    sourceType := SourceType.meeting, sourceRef := "mid-3", speaker := none,
    timestamp := none,
    rawText := "The team reviewed the system integration yesterday",
    cleanedText := "The team reviewed the system integration yesterday" }

/-- A semantic service that always answers well-formed. -/
def exServiceOk : Nat → LLMReply :=
  fun _ => LLMReply.ok Label.requirement 0.91 ("a concrete requirement")

/-- A semantic service that always times out. -/
def exServiceDown : Nat → LLMReply :=
  fun _ => LLMReply.timeout

/-- A semantic service that always answers with a schema violation. -/
def exServiceBad : Nat → LLMReply :=
  fun _ => LLMReply.badSchema

/-- Witness for C5: on a chunk that both early stages leave undecided, the
path is semantic, and both early stages are indeed undecided. -/
theorem classification_path_sequencing_witness :
    (classifyChunk defaultConfig exServiceOk exChunkSystem).path =
        ClassPath.semantic ∧
      applyHeuristics defaultConfig exChunkSystem = none ∧
      domainGate defaultConfig.vocab exChunkSystem = none :=
  ⟨(classification_path_sequencing defaultConfig exServiceOk exChunkSystem).2.2.1
      (by decide) (by decide),
    (classification_path_sequencing defaultConfig exServiceOk exChunkSystem).2.1
      ((classification_path_sequencing defaultConfig exServiceOk exChunkSystem).2.2.1
        (by decide) (by decide))⟩

/-! ### Claim theorems: semantic-classifier failure handling (C4) -/

/-- C4: A timeout/transport failure is retried exactly once; if the retry
also fails the result is the noise / 0.0 / flagged "service unavailable"
fallback; a malformed response is not retried and yields the identical
noise / 0.0 / flagged fallback; and neither failure surfaces as a batch
failure — every deduplicated chunk still yields a record. -/
theorem semantic_failure_fallbacks (service : Nat → LLMReply) (now : Nat) :
    (isRetryableFail (service 0) = true → isRetryableFail (service 1) = true →
      classifyWithLLM service = (unavailableFallback, 2)) ∧
    (service 0 = LLMReply.badSchema →
      classifyWithLLM service = (malformedFallback, 1)) ∧
    containsSub unavailableFallback.rationale.data ("unavailable").data = true ∧
    containsSub malformedFallback.rationale.data ("malformed").data = true ∧
    (resolve 0.85 0.60 unavailableFallback now).label = Label.noise ∧
    (resolve 0.85 0.60 unavailableFallback now).confidence = 0 ∧
    (resolve 0.85 0.60 unavailableFallback now).suppressed = true ∧
    (resolve 0.85 0.60 unavailableFallback now).reviewFlag = true ∧
    (resolve 0.85 0.60 malformedFallback now).label = Label.noise ∧
    (resolve 0.85 0.60 malformedFallback now).suppressed = true ∧
    (resolve 0.85 0.60 malformedFallback now).reviewFlag = true ∧
    (∀ (cfg : Config) (svc : Chunk → Nat → LLMReply) (chunks : List Chunk),
      (runBatch cfg svc now chunks).length = (deduplicate chunks).length) := by
  have hu : resolve 0.85 0.60 unavailableFallback now =
      { label := Label.noise, confidence := unavailableFallback.confidence,
        rationale := unavailableFallback.rationale,
        path := unavailableFallback.path, suppressed := true,
        reviewFlag := true, manuallyRestored := false, createdAt := now } :=
    resolve_of_low (by norm_num [unavailableFallback])
      (by norm_num [unavailableFallback])
  have hm : resolve 0.85 0.60 malformedFallback now =
      { label := Label.noise, confidence := malformedFallback.confidence,
        rationale := malformedFallback.rationale,
        path := malformedFallback.path, suppressed := true,
        reviewFlag := true, manuallyRestored := false, createdAt := now } :=
    resolve_of_low (by norm_num [malformedFallback])
      (by norm_num [malformedFallback])
  refine ⟨fun h0 h1 => ?_, fun hbad => ?_, by decide, by decide, ?_, ?_, ?_,
    ?_, ?_, ?_, ?_, fun cfg svc chunks => ?_⟩
  · have e0 := validReply_of_retryable h0
    have e1 := validReply_of_retryable h1
    simp [classifyWithLLM, e0, h0, e1, h1]
  · have e0 : validReply (service 0) = none := by rw [hbad]; rfl
    have r0 : isRetryableFail (service 0) = false := by rw [hbad]; rfl
    simp [classifyWithLLM, e0, r0]
  · rw [hu]
  · rw [hu]; rfl
  · rw [hu]
  · rw [hu]
  · rw [hm]
  · rw [hm]
  · rw [hm]
  · simp [runBatch]

/-- Witness for C4: a service that times out on both attempts produces the
unavailability fallback after the single retry, and a service answering a
schema violation produces the malformed fallback with no retry. -/
theorem semantic_failure_fallbacks_witness :
    classifyWithLLM exServiceDown = (unavailableFallback, 2) ∧
      classifyWithLLM exServiceBad = (malformedFallback, 1) ∧
      (resolve 0.85 0.60 unavailableFallback 4).suppressed = true ∧
      (resolve 0.85 0.60 unavailableFallback 4).reviewFlag = true :=
  ⟨(semantic_failure_fallbacks exServiceDown 4).1 (by decide) (by decide),
    (semantic_failure_fallbacks exServiceBad 4).2.1 (by decide),
    (semantic_failure_fallbacks exServiceDown 4).2.2.2.2.2.2.1,
    (semantic_failure_fallbacks exServiceDown 4).2.2.2.2.2.2.2.1⟩

/-! ### Claim theorems: timeline heuristic scenario (C8) -/

/-- C8: A chunk whose cleaned text contains an explicit date/deadline
pattern, has no stronger requirement/decision cue, and is not matched by the
earlier noise rules is classified by the Heuristic Classifier as
timeline_reference with confidence 0.9 on the heuristic path, and after the
Confidence Resolver its record is unsuppressed with no review flag. -/
theorem timeline_heuristic_scenario (c : Chunk) (service : Nat → LLMReply)
    (now : Nat) (h1 : containsDatePattern c.cleanedText = true)
    (h2 : hasStrongCue c.cleanedText = false)
    (h3 : isShortLowContent defaultConfig.minTokens c.cleanedText = false)
    (h4 : isStructuralDiscard c.cleanedText = false) :
    applyHeuristics defaultConfig c =
      some ⟨Label.timeline_reference, 0.9,
        "explicit date or deadline pattern", ClassPath.heuristic⟩ ∧
    (buildRecord defaultConfig service now c).cls.label =
      Label.timeline_reference ∧
    (buildRecord defaultConfig service now c).cls.confidence = 0.9 ∧
    (buildRecord defaultConfig service now c).cls.path =
      ClassPath.heuristic ∧
    (buildRecord defaultConfig service now c).cls.suppressed = false ∧
    (buildRecord defaultConfig service now c).cls.reviewFlag = false := by
  have happ : applyHeuristics defaultConfig c =
      some ⟨Label.timeline_reference, 0.9,
        "explicit date or deadline pattern", ClassPath.heuristic⟩ := by
    unfold applyHeuristics
    rw [if_neg (by simp [h3]), if_neg (by simp [h4]),
      if_pos (by simp [h1, h2])]
  have hres : buildRecord defaultConfig service now c =
      ⟨c, resolve defaultConfig.hi defaultConfig.lo
        ⟨Label.timeline_reference, 0.9, "explicit date or deadline pattern",
          ClassPath.heuristic⟩ now⟩ := by
    simp only [buildRecord, classifyChunk, happ]
  have hge : (⟨Label.timeline_reference, 0.9,
      "explicit date or deadline pattern",
      ClassPath.heuristic⟩ : Proposed).confidence ≥ defaultConfig.hi := by
    norm_num [defaultConfig]
  have hr := @resolve_of_ge defaultConfig.hi defaultConfig.lo
    ⟨Label.timeline_reference, 0.9, "explicit date or deadline pattern",
      ClassPath.heuristic⟩ now hge
  refine ⟨happ, ?_, ?_, ?_, ?_, ?_⟩ <;> (rw [hres, hr]; try rfl)

/-- Witness for C8: the scenario-B chunk "The deadline is March 15". -/
theorem timeline_heuristic_scenario_witness :
    applyHeuristics defaultConfig exChunkDeadline =
      some ⟨Label.timeline_reference, 0.9,
        "explicit date or deadline pattern", ClassPath.heuristic⟩ ∧
    (buildRecord defaultConfig exServiceOk 0 exChunkDeadline).cls.label =
      Label.timeline_reference ∧
    (buildRecord defaultConfig exServiceOk 0 exChunkDeadline).cls.suppressed =
      false ∧
    (buildRecord defaultConfig exServiceOk 0 exChunkDeadline).cls.reviewFlag =
      false :=
  ⟨(timeline_heuristic_scenario exChunkDeadline exServiceOk 0 (by decide)
      (by decide) (by decide) (by decide)).1,
    (timeline_heuristic_scenario exChunkDeadline exServiceOk 0 (by decide)
      (by decide) (by decide) (by decide)).2.1,
    (timeline_heuristic_scenario exChunkDeadline exServiceOk 0 (by decide)
      (by decide) (by decide) (by decide)).2.2.2.2.1,
    (timeline_heuristic_scenario exChunkDeadline exServiceOk 0 (by decide)
      (by decide) (by decide) (by decide)).2.2.2.2.2⟩

/-- Witness for C10: the scenario-A chunk "Thanks!" is created suppressed,
its label is noise, and it is created with manually_restored = false. -/
theorem pipeline_suppressed_implies_noise_witness :
    (buildRecord defaultConfig exServiceOk 0 exChunkAck).cls.label =
        Label.noise ∧
      (buildRecord defaultConfig exServiceOk 0 exChunkAck).cls.manuallyRestored =
        false :=
  ⟨(pipeline_suppressed_implies_noise defaultConfig exServiceOk 0 exChunkAck).1
      (by
        have happ : applyHeuristics defaultConfig exChunkAck =
            some ⟨Label.noise, 1, "low-content short message",
              ClassPath.heuristic⟩ := by decide
        have hres : buildRecord defaultConfig exServiceOk 0 exChunkAck =
            ⟨exChunkAck, resolve defaultConfig.hi defaultConfig.lo
              ⟨Label.noise, 1, "low-content short message",
                ClassPath.heuristic⟩ 0⟩ := by
          simp only [buildRecord, classifyChunk, happ]
        have hge : (⟨Label.noise, 1, "low-content short message",
            ClassPath.heuristic⟩ : Proposed).confidence ≥ defaultConfig.hi := by
          norm_num [defaultConfig]
        rw [hres, @resolve_of_ge defaultConfig.hi defaultConfig.lo
          ⟨Label.noise, 1, "low-content short message",
            ClassPath.heuristic⟩ 0 hge]
        rfl),
    (pipeline_suppressed_implies_noise defaultConfig exServiceOk 0 exChunkAck).2⟩

/-! ### Helper lemmas about the record store -/

theorem sameImmutable_refl (r : ClassifiedRecord) : sameImmutable r r :=
  ⟨rfl, rfl, rfl, rfl, rfl, rfl⟩

theorem sameImmutable_trans {a b c : ClassifiedRecord}
    (h1 : sameImmutable a b) (h2 : sameImmutable b c) : sameImmutable a c :=
  ⟨h2.1.trans h1.1, h2.2.1.trans h1.2.1, h2.2.2.1.trans h1.2.2.1,
    h2.2.2.2.1.trans h1.2.2.2.1, h2.2.2.2.2.1.trans h1.2.2.2.2.1,
    h2.2.2.2.2.2.trans h1.2.2.2.2.2⟩

theorem sameImmutable_setRestored (r : ClassifiedRecord) :
    sameImmutable r (setRestored r) := by
  simp [sameImmutable, setRestored]

theorem setRestored_suppressed (r : ClassifiedRecord) :
    (setRestored r).cls.suppressed = false := rfl

theorem setRestored_restored (r : ClassifiedRecord) :
    (setRestored r).cls.manuallyRestored = true := rfl

theorem updateFirst_length (id : String)
    (f : ClassifiedRecord → ClassifiedRecord) :
    ∀ l : List ClassifiedRecord, (updateFirst id f l).length = l.length := by
  intro l
  induction l with
  | nil => rfl
  | cons r rs ih =>
    by_cases h : (r.chunk.chunkId == id) = true <;>
      simp [updateFirst, h, ih]

theorem updateFirst_getElem? (id : String)
    (f : ClassifiedRecord → ClassifiedRecord) :
    ∀ (l : List ClassifiedRecord) (i : Nat) (r : ClassifiedRecord),
      l[i]? = some r →
      (updateFirst id f l)[i]? = some r ∨
        (updateFirst id f l)[i]? = some (f r) := by
  intro l
  induction l with
  | nil => intro i r h; simp at h
  | cons x xs ih =>
    intro i r h
    by_cases hx : (x.chunk.chunkId == id) = true
    · cases i with
      | zero =>
        simp only [List.getElem?_cons_zero, Option.some.injEq] at h
        subst h
        right
        simp [updateFirst, hx]
      | succ j =>
        simp only [List.getElem?_cons_succ] at h
        left
        simp [updateFirst, hx, h]
    · cases i with
      | zero =>
        simp only [List.getElem?_cons_zero, Option.some.injEq] at h
        subst h
        left
        simp [updateFirst, hx]
      | succ j =>
        simp only [List.getElem?_cons_succ] at h
        rcases ih j r h with h1 | h1
        · left
          simpa [updateFirst, hx] using h1
        · right
          simpa [updateFirst, hx] using h1

theorem updateFirst_getElem?_of_ne (id : String)
    (f : ClassifiedRecord → ClassifiedRecord) :
    ∀ (l : List ClassifiedRecord) (i : Nat) (r r' : ClassifiedRecord),
      l[i]? = some r → (updateFirst id f l)[i]? = some r' → r' ≠ r →
      l.find? (fun x => x.chunk.chunkId == id) = some r ∧ r' = f r := by
  intro l
  induction l with
  | nil => intro i r r' h; simp at h
  | cons x xs ih =>
    intro i r r' h h' hne
    by_cases hx : (x.chunk.chunkId == id) = true
    · cases i with
      | zero =>
        simp only [List.getElem?_cons_zero, Option.some.injEq] at h
        subst h
        simp only [updateFirst, hx, if_true, List.getElem?_cons_zero,
          Option.some.injEq] at h'
        exact ⟨List.find?_cons_of_pos _ hx, h'.symm⟩
      | succ j =>
        simp only [List.getElem?_cons_succ] at h
        simp only [updateFirst, hx, if_true, List.getElem?_cons_succ] at h'
        rw [h] at h'
        injection h' with h''
        exact absurd h''.symm hne
    · cases i with
      | zero =>
        simp only [List.getElem?_cons_zero, Option.some.injEq] at h
        subst h
        simp [updateFirst, hx] at h'
        exact absurd h'.symm hne
      | succ j =>
        simp only [List.getElem?_cons_succ] at h
        simp [updateFirst, hx] at h'
        have hrec := ih j r r' h h' hne
        refine ⟨?_, hrec.2⟩
        rw [List.find?_cons_of_neg _ (by simpa using hx)]
        exact hrec.1

theorem restoreRecord_of_find {st : StoreState} {id : String}
    {actor : String} {time : Nat} {r : ClassifiedRecord}
    (h : st.records.find? (fun x => x.chunk.chunkId == id) = some r) :
    restoreRecord st id actor time =
      Except.ok
        ({ records := updateFirst id setRestored st.records,
           events := st.events ++
             [⟨id, actor, time, r.cls.suppressed, r.cls.manuallyRestored⟩] },
          setRestored r) := by
  simp [restoreRecord, h]

theorem restoreRecord_of_none {st : StoreState} {id : String}
    {actor : String} {time : Nat}
    (h : st.records.find? (fun x => x.chunk.chunkId == id) = none) :
    restoreRecord st id actor time = Except.error RestoreError.notFound := by
  simp [restoreRecord, h]

theorem applyOp_records_length (st : StoreState) (op : StoreOp) :
    st.records.length ≤ (applyOp st op).records.length := by
  cases op with
  | ingest cfg svc now chunks => simp [applyOp]
  | restore id a t =>
    simp only [applyOp]
    cases hfind : st.records.find? (fun x => x.chunk.chunkId == id) with
    | none => rw [restoreRecord_of_none hfind]
    | some r =>
      rw [restoreRecord_of_find hfind]
      simp [updateFirst_length]

theorem applyOp_getElem?_preserved (st : StoreState) (op : StoreOp) (i : Nat)
    (r : ClassifiedRecord) (h : st.records[i]? = some r) :
    ∃ r', (applyOp st op).records[i]? = some r' ∧ sameImmutable r r' := by
  have hi : i < st.records.length := by
    rcases List.getElem?_eq_some.mp h with ⟨hlt, _⟩
    exact hlt
  cases op with
  | ingest cfg svc now chunks =>
    refine ⟨r, ?_, sameImmutable_refl r⟩
    simp only [applyOp]
    rw [List.getElem?_append_left hi]
    exact h
  | restore id a t =>
    simp only [applyOp]
    cases hfind : st.records.find? (fun x => x.chunk.chunkId == id) with
    | none =>
      rw [restoreRecord_of_none hfind]
      exact ⟨r, h, sameImmutable_refl r⟩
    | some r0 =>
      rw [restoreRecord_of_find hfind]
      rcases updateFirst_getElem? id setRestored st.records i r h with h1 | h1
      · exact ⟨r, h1, sameImmutable_refl r⟩
      · exact ⟨setRestored r, h1, sameImmutable_setRestored r⟩

theorem applyOps_records_length (ops : List StoreOp) :
    ∀ st : StoreState, st.records.length ≤ (applyOps st ops).records.length := by
  induction ops with
  | nil => intro st; exact le_refl _
  | cons op ops ih =>
    intro st
    exact (applyOp_records_length st op).trans (ih (applyOp st op))

theorem applyOps_getElem?_preserved (ops : List StoreOp) :
    ∀ (st : StoreState) (i : Nat) (r : ClassifiedRecord),
      st.records[i]? = some r →
      ∃ r', (applyOps st ops).records[i]? = some r' ∧ sameImmutable r r' := by
  induction ops with
  | nil => intro st i r h; exact ⟨r, h, sameImmutable_refl r⟩
  | cons op ops ih =>
    intro st i r h
    rcases applyOp_getElem?_preserved st op i r h with ⟨r1, h1, hs1⟩
    rcases ih (applyOp st op) i r1 h1 with ⟨r2, h2, hs2⟩
    exact ⟨r2, h2, sameImmutable_trans hs1 hs2⟩

theorem applyOp_mutation_logged (st : StoreState) (op : StoreOp) (i : Nat)
    (r r' : ClassifiedRecord) (h : st.records[i]? = some r)
    (h' : (applyOp st op).records[i]? = some r') (hne : r' ≠ r) :
    sameImmutable r r' ∧
      ∃ e, (applyOp st op).events = st.events ++ [e] ∧
        e.prevSuppressed = r.cls.suppressed ∧
        e.prevRestored = r.cls.manuallyRestored := by
  have hi : i < st.records.length := by
    rcases List.getElem?_eq_some.mp h with ⟨hlt, _⟩
    exact hlt
  cases op with
  | ingest cfg svc now chunks =>
    exfalso
    simp only [applyOp] at h'
    rw [List.getElem?_append_left hi, h] at h'
    injection h' with h''
    exact hne h''.symm
  | restore id a t =>
    simp only [applyOp] at h' ⊢
    cases hfind : st.records.find? (fun x => x.chunk.chunkId == id) with
    | none =>
      rw [restoreRecord_of_none hfind] at h' ⊢
      rw [h] at h'
      injection h' with h''
      exact absurd h''.symm hne
    | some r0 =>
      rw [restoreRecord_of_find hfind] at h' ⊢
      simp only at h' ⊢
      have hchar :=
        updateFirst_getElem?_of_ne id setRestored st.records i r r' h h' hne
      have hr0 : r0 = r := by
        rw [hfind] at hchar
        injection hchar.1 with h''
      refine ⟨?_, ⟨⟨id, a, t, r0.cls.suppressed, r0.cls.manuallyRestored⟩,
        rfl, by rw [hr0], by rw [hr0]⟩⟩
      rw [hchar.2]
      exact sameImmutable_setRestored r

/-! ### Claim theorems: append-only store with audited mutations (C2) -/

/-- C2: Across any sequence of store operations no record is ever deleted
(the record count is monotonically non-decreasing and every record stays at
its position), every surviving record keeps all fields other than suppressed
and manually_restored, and any single-operation mutation of a record changes
only those two fields and appends an audit event carrying the previous
values. -/
theorem records_append_only_and_audited (st : StoreState)
    (ops : List StoreOp) :
    st.records.length ≤ (applyOps st ops).records.length ∧
    (∀ (i : Nat) (r : ClassifiedRecord), st.records[i]? = some r →
      ∃ r', (applyOps st ops).records[i]? = some r' ∧ sameImmutable r r') ∧
    (∀ (op : StoreOp) (i : Nat) (r r' : ClassifiedRecord),
      st.records[i]? = some r →
      (applyOp st op).records[i]? = some r' → r' ≠ r →
      sameImmutable r r' ∧
        ∃ e, (applyOp st op).events = st.events ++ [e] ∧
          e.prevSuppressed = r.cls.suppressed ∧
          e.prevRestored = r.cls.manuallyRestored) :=
  ⟨applyOps_records_length ops st,
    fun i r h => applyOps_getElem?_preserved ops st i r h,
    fun op i r r' h h' hne => applyOp_mutation_logged st op i r r' h h' hne⟩

/-! ### Fixtures for the store witnesses -/

/-- A concrete noise record as the pipeline would create it. -/
def exRecordNoise : ClassifiedRecord :=
  { chunk := exChunkAck,
    cls := { label := Label.noise, confidence := 1,
             rationale := "low-content short message",
             path := ClassPath.heuristic, suppressed := true,
             reviewFlag := false, manuallyRestored := false,
             createdAt := 0 } }

/-- A concrete one-record store. -/
def exStore : StoreState :=
  { records := [exRecordNoise], events := [] }

/-- A store whose only record has been restored. -/
def exStoreRestored : StoreState :=
  { records := [setRestored exRecordNoise],
    events := [⟨"c-ack", "alice", 5, true, false⟩] }

/-- A per-chunk semantic service for batch fixtures. -/
def exBatchService : Chunk → Nat → LLMReply :=
  fun _ => exServiceDown

/-- Witness for C2: restoring the one suppressed record of a concrete store
keeps it at its position with only the two mutable fields changed and logs
one audit event carrying the previous state. -/
theorem records_append_only_and_audited_witness :
    (exStore.records.length ≤
      (applyOps exStore [StoreOp.restore ("c-ack") ("alice") 5]).records.length) ∧
    (∃ r', (applyOps exStore
        [StoreOp.restore ("c-ack") ("alice") 5]).records[0]? = some r' ∧
      sameImmutable exRecordNoise r') ∧
    (sameImmutable exRecordNoise (setRestored exRecordNoise) ∧
      ∃ e, (applyOp exStore (StoreOp.restore ("c-ack") ("alice") 5)).events =
          exStore.events ++ [e] ∧
        e.prevSuppressed = exRecordNoise.cls.suppressed ∧
        e.prevRestored = exRecordNoise.cls.manuallyRestored) :=
  ⟨(records_append_only_and_audited exStore
      [StoreOp.restore ("c-ack") ("alice") 5]).1,
    (records_append_only_and_audited exStore
      [StoreOp.restore ("c-ack") ("alice") 5]).2.1 0 exRecordNoise (by rfl),
    (records_append_only_and_audited exStore
      [StoreOp.restore ("c-ack") ("alice") 5]).2.2
      (StoreOp.restore ("c-ack") ("alice") 5) 0 exRecordNoise
      (setRestored exRecordNoise) (by rfl) (by rfl) (by decide)⟩

/-! ### Claim theorems: the Restore operation (C3) -/

/-- C3: Restore on an existing identifier sets suppressed = false and
manually_restored = true on that record, appends an audit event with the
previous state, and returns the updated record; on a missing identifier it
fails with NotFound leaving the store unchanged; and the only other
operation, a pipeline run, never sets manually_restored = true. -/
theorem restore_contract (st : StoreState) (id actor : String) (time : Nat) :
    (∀ r, st.records.find? (fun x => x.chunk.chunkId == id) = some r →
      restoreRecord st id actor time =
        Except.ok
          ({ records := updateFirst id setRestored st.records,
             events := st.events ++
               [⟨id, actor, time, r.cls.suppressed,
                 r.cls.manuallyRestored⟩] },
            setRestored r) ∧
      (setRestored r).cls.suppressed = false ∧
      (setRestored r).cls.manuallyRestored = true ∧
      sameImmutable r (setRestored r)) ∧
    (st.records.find? (fun x => x.chunk.chunkId == id) = none →
      restoreRecord st id actor time = Except.error RestoreError.notFound ∧
      applyOp st (StoreOp.restore id actor time) = st) ∧
    (∀ (cfg : Config) (service : Chunk → Nat → LLMReply) (now : Nat)
      (chunks : List Chunk) (i : Nat) (r' : ClassifiedRecord),
      (applyOp st
        (StoreOp.ingest cfg service now chunks)).records[i]? = some r' →
      r'.cls.manuallyRestored = true →
      ∃ r, st.records[i]? = some r ∧ r.cls.manuallyRestored = true) := by
  refine ⟨fun r hfind => ?_, fun hfind => ?_, ?_⟩
  · exact ⟨restoreRecord_of_find hfind, setRestored_suppressed r,
      setRestored_restored r, sameImmutable_setRestored r⟩
  · refine ⟨restoreRecord_of_none hfind, ?_⟩
    simp only [applyOp]
    rw [restoreRecord_of_none hfind]
  · intro cfg service now chunks i r' h' hm
    simp only [applyOp] at h'
    by_cases hi : i < st.records.length
    · rw [List.getElem?_append_left hi] at h'
      exact ⟨r', h', hm⟩
    · exfalso
      rw [List.getElem?_append_right (Nat.le_of_not_lt hi)] at h'
      have hmem := List.getElem?_mem h'
      rcases List.mem_map.mp hmem with ⟨c, _, hc⟩
      rw [← hc] at hm
      rw [buildRecord_restored_false] at hm
      exact Bool.false_ne_true hm

/-- Witness for C3: restoring the existing record of a concrete store yields
the updated record with suppressed = false and manually_restored = true; a
missing identifier yields NotFound and leaves the store unchanged; and an
ingest over a store whose record is restored traces that flag back to the
pre-existing record. -/
theorem restore_contract_witness :
    ((setRestored exRecordNoise).cls.suppressed = false ∧
      (setRestored exRecordNoise).cls.manuallyRestored = true) ∧
    (restoreRecord exStore ("zzz") ("alice") 5 =
        Except.error RestoreError.notFound ∧
      applyOp exStore (StoreOp.restore ("zzz") ("alice") 5) = exStore) ∧
    (∃ r, exStoreRestored.records[0]? = some r ∧
      r.cls.manuallyRestored = true) :=
  ⟨⟨((restore_contract exStore ("c-ack") ("alice") 5).1 exRecordNoise
        (by rfl)).2.1,
      ((restore_contract exStore ("c-ack") ("alice") 5).1 exRecordNoise
        (by rfl)).2.2.1⟩,
    (restore_contract exStore ("zzz") ("alice") 5).2.1 (by rfl),
    (restore_contract exStoreRestored ("x") ("a") 0).2.2 defaultConfig
      exBatchService 0 [] 0 (setRestored exRecordNoise) (by rfl) (by rfl)⟩

/-! ### The reachable-store invariant and the signal feed (C9) -/

/-- Invariant of every reachable store: a never-restored record is
suppressed exactly when its label is noise. -/
def storeInv (st : StoreState) : Prop :=
  ∀ r ∈ st.records, r.cls.manuallyRestored = false →
    (r.cls.suppressed = true ↔ r.cls.label = Label.noise)

theorem storeInv_empty : storeInv emptyStore := by
  intro r hr
  simp [emptyStore] at hr

theorem updateFirst_mem {id : String} {f : ClassifiedRecord → ClassifiedRecord}
    {x : ClassifiedRecord} :
    ∀ {l : List ClassifiedRecord}, x ∈ updateFirst id f l →
      x ∈ l ∨ ∃ r ∈ l, x = f r := by
  intro l
  induction l with
  | nil => intro hx; simp [updateFirst] at hx
  | cons r rs ih =>
    intro hx
    by_cases hr : (r.chunk.chunkId == id) = true
    · simp only [updateFirst, hr, if_true] at hx
      rcases List.mem_cons.mp hx with h1 | h1
      · exact Or.inr ⟨r, List.mem_cons_self r rs, h1⟩
      · exact Or.inl (List.mem_cons_of_mem r h1)
    · simp only [updateFirst, hr, if_false] at hx
      rcases List.mem_cons.mp hx with h1 | h1
      · exact Or.inl (h1 ▸ List.mem_cons_self r rs)
      · rcases ih h1 with h2 | ⟨r0, hr0, he⟩
        · exact Or.inl (List.mem_cons_of_mem r h2)
        · exact Or.inr ⟨r0, List.mem_cons_of_mem r hr0, he⟩

theorem storeInv_applyOp (st : StoreState) (op : StoreOp)
    (h : storeInv st) : storeInv (applyOp st op) := by
  cases op with
  | ingest cfg svc now chunks =>
    intro r hr hm
    simp only [applyOp] at hr
    rcases List.mem_append.mp hr with h1 | h1
    · exact h r h1 hm
    · rcases List.mem_map.mp h1 with ⟨c, _, hc⟩
      subst hc
      exact buildRecord_suppressed_iff cfg (svc c) now c
  | restore id a t =>
    intro r hr hm
    simp only [applyOp] at hr
    rcases hfind : st.records.find? (fun x => x.chunk.chunkId == id) with
      _ | r0
    · rw [restoreRecord_of_none hfind] at hr
      exact h r hr hm
    · rw [restoreRecord_of_find hfind] at hr
      simp only at hr
      rcases updateFirst_mem hr with h1 | ⟨r1, _, he⟩
      · exact h r h1 hm
      · subst he
        rw [setRestored_restored] at hm
        exact absurd hm (by simp)

theorem storeInv_applyOps (ops : List StoreOp) :
    ∀ st : StoreState, storeInv st → storeInv (applyOps st ops) := by
  induction ops with
  | nil => intro st h; exact h
  | cons op ops ih =>
    intro st h
    exact ih (applyOp st op) (storeInv_applyOp st op h)

/-- C9: On every store state reachable from the empty store through pipeline
runs and Restore operations, the signal-feed query (suppressed = false OR
manually_restored = true) returns exactly the records selected by the stated
AKS read condition (label != noise OR manually_restored = true). -/
theorem signal_feed_matches_read_condition (ops : List StoreOp) :
    signalFeed (applyOps emptyStore ops) = aksRead (applyOps emptyStore ops) := by
  have hinv := storeInv_applyOps ops emptyStore storeInv_empty
  unfold signalFeed aksRead
  apply List.filter_congr
  intro r hr
  cases hm : r.cls.manuallyRestored with
  | true => simp [hm]
  | false =>
    have hiff := hinv r hr hm
    cases hs : r.cls.suppressed with
    | true =>
      have hl : r.cls.label = Label.noise := hiff.mp hs
      simp [hm, hs, hl]
    | false =>
      cases hl : (r.cls.label == Label.noise) with
      | true =>
        have : r.cls.label = Label.noise := by simpa using hl
        have := hiff.mpr this
        rw [hs] at this
        exact absurd this Bool.false_ne_true
      | false => simp [hm, hs, hl]

end NoiseFilter
